import Mathlib

/-!
# Verification of the cinema scraper (src/scraper.py)

Shallow embedding of the scraper's pure core in Lean 4:

* Python `str` is embedded as Lean `String` (sequences of Unicode scalar
  values; `len` and slicing count code points, as in CPython).
* Python comparison `s1 < s2` on strings is lexicographic on code points;
  it is embedded as `strLtB` below (Lean's builtin `String` order is not
  kernel-reducible, so we define the comparison by structural recursion).
* Python dict values occurring in the scraper's records are strings,
  ints, or `None`; they are embedded as `PyVal`.  Python dicts are
  embedded as association lists in insertion order with the update
  semantics of CPython dicts (assignment to a present key keeps its
  position, assignment to an absent key appends; keys are unique, which
  appears as `Nodup` hypotheses on inputs where it matters).
* Fallible code (`movie['Movie Title']` raising `KeyError`) is embedded
  with `Option`.
* Python's `sorted` is the stable sort by the given key comparison; a
  stable sort is uniquely determined by the comparator and the input
  order, so it is embedded as insertion sort (which is stable).
-/

namespace Scraper

/-! ## Python string primitives -/

/-- Python `s1 < s2` on strings: lexicographic comparison of the code
point sequences. -/
def strLtB : List Char → List Char → Bool
  | [], [] => false
  | [], _ :: _ => true
  | _ :: _, [] => false
  | a :: as, b :: bs =>
    if a.toNat < b.toNat then true
    else if b.toNat < a.toNat then false
    else strLtB as bs

/-- Python `s1 < s2` on `String`. -/
def pyStrLt (s t : String) : Bool := strLtB s.data t.data

/-- Python `s1 <= s2` on `String` (total order: `s1 <= s2 ↔ ¬ s2 < s1`). -/
def pyStrLe (s t : String) : Bool := !(pyStrLt t s)

/-- The whitespace characters stripped by Python `str.strip()` (the ASCII
subset; the scraper only ever strips HTML text content). -/
def pyIsSpace (c : Char) : Bool := c.toNat = 32 || (9 ≤ c.toNat && c.toNat ≤ 13)

/-- Python `s.strip()`: remove leading and trailing whitespace. -/
def pyStrip (s : String) : String :=
  String.mk (((s.data.dropWhile pyIsSpace).reverse.dropWhile pyIsSpace).reverse)

/-! ## Python values (`PyVal`) and truthiness -/

/-- The values occurring in the scraper's record dicts: strings, ints and
`None` (`local_poster_path` may be `None`, `total_minutes` may be an int;
everything else is a string). -/
inductive PyVal : Type
  | str (s : String)
  | int (n : Int)
  | none
deriving DecidableEq

/-- The sentinel "not available" marker used throughout the scraper. -/
def NA : PyVal := PyVal.str "N/A"

/-- Python truthiness of a record value (`if value`): a string is truthy
iff non-empty, an int iff nonzero, `None` is falsy. -/
def pyTruthy : PyVal → Bool
  | .str s => s ≠ ""
  | .int n => n ≠ 0
  | .none => false

/-- Python `<=` on the scraper's sort keys.  In the scraper every sort key
is a string (a movie title, or `''` from `x.get('Movie Title','')`), where
this is Python's lexicographic comparison.  Python raises `TypeError` on
cross-type comparisons; the model totalizes those branches
(`None < int < str`) so that the order is total — they are never exercised
under the theorems' hypotheses. -/
def pyLeB : PyVal → PyVal → Bool
  | .none, _ => true
  | .int _, .none => false
  | .int m, .int n => decide (m ≤ n)
  | .int _, .str _ => true
  | .str _, .none => false
  | .str _, .int _ => false
  | .str s, .str t => pyStrLe s t

/-! ## Python dicts as insertion-ordered association lists -/

/-- Python `d[k]` and `d.get(k)`: the value at key `k`, if present. -/
def dictGet? {κ α : Type} [DecidableEq κ] : List (κ × α) → κ → Option α
  | [], _ => Option.none
  | p :: ps, k => if p.1 = k then some p.2 else dictGet? ps k

/-- Python `k in d`. -/
def dictMem {κ α : Type} [DecidableEq κ] (d : List (κ × α)) (k : κ) : Bool :=
  (dictGet? d k).isSome

/-- Python `d[k] = v`: replace the value at a present key in place, else append. -/
def dictSet {κ α : Type} [DecidableEq κ] (d : List (κ × α)) (k : κ) (v : α) : List (κ × α) :=
  if dictMem d k then d.map (fun p => if p.1 = k then (k, v) else p) else d ++ [(k, v)]

/-- A movie record: a Python dict with string keys, in insertion order. -/
abbrev Record := List (String × PyVal)

/-- The persisted collection `existing_data`: a dict keyed by the record's
`'Movie Title'` value. -/
abbrev Collection := List (PyVal × Record)

/-! ## merge_data (src/scraper.py lines 86-104)

```python
def merge_data(existing_data, fresh_data):
    updated_data = existing_data.copy()
    for movie in fresh_data:
        title = movie['Movie Title']
        if title in updated_data:
            for key, value in movie.items():
                if value and value != 'N/A': updated_data[title][key] = value
            updated_data[title]['Scrape Date'] = movie['Scrape Date']
        else:
            updated_data[title] = movie
    return sorted(updated_data.values(), key=lambda x: x.get('Movie Title', ''))
```
-/

/-- The update applied to an existing entry for an already-known title
(lines 95-97): overwrite each field whose fresh value is truthy and not
the sentinel, then unconditionally overwrite `'Scrape Date'` with the
fresh one.  A fresh record without a `'Scrape Date'` key raises
`KeyError`, embedded as `Option.none`. -/
def updateRecord (old movie : Record) : Option Record :=
  let merged := movie.foldl
    (fun r kv => if pyTruthy kv.2 ∧ kv.2 ≠ NA then dictSet r kv.1 kv.2 else r) old
  match dictGet? movie "Scrape Date" with
  | some sd => some (dictSet merged "Scrape Date" sd)
  | Option.none => Option.none

/-- One iteration of `merge_data`'s loop over `fresh_data` (lines 91-102). -/
def mergeStep (acc : Collection) (movie : Record) : Option Collection :=
  match dictGet? movie "Movie Title" with
  | Option.none => Option.none
  | some title =>
    match dictGet? acc title with
    | some old =>
      match updateRecord old movie with
      | some r => some (dictSet acc title r)
      | Option.none => Option.none
    | Option.none => some (dictSet acc title movie)

/-- The whole loop of `merge_data` (lines 88-102), before sorting:
`updated_data` as a function of the existing collection and the fresh
list.  (`existing_data.copy()` is a shallow copy and the loop mutates the
shared record dicts, but the returned value only depends on the final
state of `updated_data`, which this computes.) -/
def mergeFold (existing : Collection) (fresh : List Record) : Option Collection :=
  fresh.foldlM mergeStep existing

/-- The sort key `lambda x: x.get('Movie Title', '')` of line 104. -/
def titleKey (r : Record) : PyVal := (dictGet? r "Movie Title").getD (PyVal.str "")

/-- The record ordering used by `sorted` on line 104. -/
def recordLe (a b : Record) : Prop := pyLeB (titleKey a) (titleKey b) = true

instance : DecidableRel recordLe := fun a b =>
  inferInstanceAs (Decidable (pyLeB (titleKey a) (titleKey b) = true))

/-- The function `merge_data` (lines 86-104).  `sorted` is stable, hence equal to
insertion sort with the same comparator. -/
def merge_data (existing : Collection) (fresh : List Record) : Option (List Record) :=
  match mergeFold existing fresh with
  | some u => some (List.insertionSort recordLe (u.map (·.2)))
  | Option.none => Option.none

/-- The effect of one fresh record on the collection entry for its own
title: insert it when the title is new, else update the existing entry
field-by-field. -/
def applyFresh : Option Record → Record → Option Record
  | Option.none, m => some m
  | some old, m => updateRecord old m

/-- The fold of `applyFresh` over a list of fresh records (the records of one
given title, in batch order). -/
def collapseAt : Option Record → List Record → Option (Option Record)
  | cur, [] => some cur
  | cur, m :: ms =>
    match applyFresh cur m with
    | some r => collapseAt (some r) ms
    | Option.none => Option.none

/-- Whether a `PyVal` is a Python `str`. -/
def isStr : PyVal → Bool
  | .str _ => true
  | _ => false

/-- Whether a record has a `'Movie Title'` key holding a string. -/
def titleIsStr (m : Record) : Bool :=
  match dictGet? m "Movie Title" with
  | some tm => isStr tm
  | Option.none => false

/-- The data-model invariant of the persisted collection (spec §3): keys
are unique, each key equals the `'Movie Title'` field of its record, and
titles are strings. -/
def collInv (c : Collection) : Prop :=
  (c.map (·.1)).Nodup ∧ ∀ p ∈ c, dictGet? p.2 "Movie Title" = some p.1 ∧ isStr p.1 = true

/-- The data-model well-formedness of a fresh batch: each record is a
Python dict (unique keys) whose `'Movie Title'` value is a string. -/
def freshInv (F : List Record) : Prop :=
  ∀ m ∈ F, (m.map (·.1)).Nodup ∧ titleIsStr m = true

/-! ## The character-budget truncation policy (src/scraper.py lines 32, 291-294)

```python
SHEETS_CELL_CHAR_LIMIT = 49900 # Google Sheets limit is 50k, be safe
...
if len(showtimes_data) > SHEETS_CELL_CHAR_LIMIT:
    showtimes_data = showtimes_data[:SHEETS_CELL_CHAR_LIMIT] + "...[TRUNCATED]"
```
-/

def SHEETS_CELL_CHAR_LIMIT : Nat := 49900

def TRUNCATION_MARKER : String := "...[TRUNCATED]"

/-- The truncation applied to `showtimes_data` in `main_scraper` before
the record is assembled (lines 291-294). -/
def truncate_showtimes (s : String) : String :=
  if s.length > SHEETS_CELL_CHAR_LIMIT then
    String.mk (s.data.take SHEETS_CELL_CHAR_LIMIT) ++ TRUNCATION_MARKER
  else s

/-- A concrete oversize payload: 49901 copies of `a`. -/
def bigPayload : String := String.mk (List.replicate 49901 'a')

/-! ## parse_showtimes_from_html (src/scraper.py lines 120-139)

The function receives the parsed HTML; the relevant input is the node
list selected by `'#ShowtimesList > a, #ShowtimesList > div'`, in
document order.  Each selected element is either an `<a>` (with the text
of its `<b>` child, when one exists) or a `<div>` (with the text contents
of its `div.showbox a, div.showbox` descendants). -/

/-- One element of the `#ShowtimesList > a, #ShowtimesList > div`
selection. -/
inductive STElem : Type
  | anchor (bold : Option String)
  | timesDiv (rawLabels : List String)
deriving DecidableEq

/-- A per-page showtime table: cinema name to collected time labels. -/
abbrev ShowMap := List (String × List String)

/-- The loop body of `parse_showtimes_from_html` (lines 125-135).  State:
the `showtimes` dict and `current_cinema` (initially `'N/A'`). -/
def parseStep (st : ShowMap × String) (e : STElem) : ShowMap × String :=
  match e with
  | .anchor (some btext) =>
    let c := pyStrip btext
    let d := if dictMem st.1 c then st.1 else st.1 ++ [(c, [])]
    (d, c)
  | .anchor Option.none => st
  | .timesDiv raws =>
    let times := (raws.map pyStrip).filter (fun s => decide (s ≠ ""))
    -- `showtimes[current_cinema].extend(times)`; the key is always
    -- present here (the anchor that set `current_cinema` inserted it)
    if times ≠ [] ∧ st.2 ≠ "N/A" then
      (st.1.map (fun p => if p.1 = st.2 then (p.1, p.2 ++ times) else p), st.2)
    else st

/-- Python `s1 <= s2` on strings, as a decidable relation. -/
def strLeP (s t : String) : Prop := pyStrLe s t = true

instance : DecidableRel strLeP := fun s t =>
  inferInstanceAs (Decidable (pyStrLe s t = true))

/-- Python `sorted(list(set(xs)))` on strings (line 138): the strictly
ascending enumeration of the distinct elements of `xs`.  `set` iteration
order is unspecified, but sorting makes the result canonical; we compute
it as insertion sort of the duplicate-free sublist, which yields the same
(unique) strictly ascending arrangement. -/
def pySortedSet (xs : List String) : List String :=
  List.insertionSort strLeP xs.dedup

/-- The function `parse_showtimes_from_html` (lines 120-139). -/
def parse_showtimes_from_html (elems : List STElem) : ShowMap :=
  let st := elems.foldl parseStep ([], "N/A")
  st.1.map (fun p => (p.1, pySortedSet p.2))

/-! ## scrape_aggregated_showtimes (src/scraper.py lines 141-214)

The walker's interaction with the site is embedded as data: the parsed
initial response (its HTTP status and `Page`), and the sequence of
postback responses, `server : Nat → PostResp`, where `server i` is the
response to the `i`-th POST issued.  The walker is instrumented to also
return the list of form postbacks it issued. -/

/-- An `<option>` of the date dropdown: its `value` attribute (if any)
and its text. -/
structure OptionTag : Type where
  value : Option String
  text : String
deriving DecidableEq

/-- The parsed pieces of one showtime-page response: the
`#ctl00_cphContent_ctl00_ddlShowdate` dropdown (if present), the
`__VIEWSTATE` and `__EVENTVALIDATION` token values (if present), and the
`#ShowtimesList` selection. -/
structure Page : Type where
  dateDropdown : Option (List OptionTag)
  viewstate : Option String
  eventvalidation : Option String
  showtimesList : List STElem
deriving DecidableEq

/-- One postback response. -/
structure PostResp : Type where
  status : Nat
  page : Page
deriving DecidableEq

/-- The form payload of one date postback (lines 175-182). -/
structure FormData : Type where
  eventtarget : String
  eventargument : String
  lastfocus : String
  viewstate : String
  eventvalidation : String
  showdate : String
deriving DecidableEq

def EVENTTARGET : String := "ctl00$cphContent$ctl00$ddlShowdate"

def MAX_DAYS_TO_SCRAPE : Nat := 5

/-- Lines 158-159: the `(value, text)` pairs of the dropdown options that
carry a truthy `value` attribute, truncated to `MAX_DAYS_TO_SCRAPE`. -/
def dateOptionsOf (opts : List OptionTag) : List (String × String) :=
  ((opts.filter fun o =>
      match o.value with
      | some v => decide (v ≠ "")
      | Option.none => false).map fun o => (o.value.getD "", o.text)).take
    MAX_DAYS_TO_SCRAPE

/-- The loop over the remaining dates (lines 171-198).  Arguments: the
remaining `(value, text)` date options, the index of the next postback,
the current `viewstate` and `eventvalidation` tokens, the accumulated
`all_dates_data`, and the postbacks issued so far. -/
def walkLoop (server : Nat → PostResp) :
    List (String × String) → Nat → String → String →
    List (String × ShowMap) → List FormData →
    List (String × ShowMap) × List FormData
  | [], _, _, _, acc, posts => (acc, posts)
  | d :: restD, i, vs, ev, acc, posts =>
    let form : FormData := ⟨EVENTTARGET, "", "", vs, ev, d.1⟩
    let resp := server i
    if resp.status ≠ 200 then (acc, posts ++ [form])
    else
      let acc2 := dictSet acc d.2 (parse_showtimes_from_html resp.page.showtimesList)
      let vs2 := match resp.page.viewstate with | some v => v | Option.none => vs
      let ev2 := match resp.page.eventvalidation with | some v => v | Option.none => ev
      walkLoop server restD (i + 1) vs2 ev2 acc2 (posts ++ [form])

/-- Lines 203-207: `cinema_map[cinema_name]["showings"].append(...)`,
creating the cinema entry first when absent. -/
def appendShowing (cm : List (String × List (String × List String))) (c : String)
    (s : String × List String) : List (String × List (String × List String)) :=
  if dictMem cm c then cm.map (fun p => if p.1 = c then (p.1, p.2 ++ [s]) else p)
  else cm ++ [(c, [s])]

/-- Lines 200-209: restructure `all_dates_data` (date to cinema to times)
into the per-cinema payload (cinema to list of `(date, times)` showings),
preserving the visit order of dates. -/
def restructure (allDates : List (String × ShowMap)) :
    List (String × List (String × List String)) :=
  allDates.foldl
    (fun cm dp => dp.2.foldl (fun cm2 cp => appendShowing cm2 cp.1 (dp.1, cp.2)) cm) []

/-- The walker `scrape_aggregated_showtimes` up to (but not including) the JSON
serialization: `some payload` on the success path, `Option.none` on every
path that resolves to the `'N/A'` sentinel; paired with the postbacks
issued. -/
def scrapeShowtimesStructured (initialStatus : Nat) (page : Page)
    (server : Nat → PostResp) :
    Option (List (String × List (String × List String))) × List FormData :=
  -- `response.raise_for_status()`: a 4xx/5xx initial response raises,
  -- caught by the enclosing `except` which returns 'N/A'
  if 400 ≤ initialStatus then (Option.none, [])
  else
    match page.dateDropdown with
    | Option.none => (Option.none, [])  -- line 156: `if not date_dropdown: return 'N/A'`
    | some opts =>
      match dateOptionsOf opts with
      | [] => (Option.none, [])  -- line 165: `if not date_options: return 'N/A'`
      | d0 :: restD =>
        let vs := page.viewstate.getD ""
        let ev := page.eventvalidation.getD ""
        let acc0 : List (String × ShowMap) :=
          [(d0.2, parse_showtimes_from_html page.showtimesList)]
        let r := walkLoop server restD 0 vs ev acc0 []
        (some (restructure r.1), r.2)

/-! JSON serialization: `json.dumps(final_json, separators=(',', ':'))`
with CPython's default `ensure_ascii=True` escaping. -/

def hexDigitChar (n : Nat) : Char :=
  if n < 10 then Char.ofNat (48 + n) else Char.ofNat (87 + n)

def uEscape (n : Nat) : List Char :=
  ['\\', 'u', hexDigitChar (n / 4096 % 16), hexDigitChar (n / 256 % 16),
    hexDigitChar (n / 16 % 16), hexDigitChar (n % 16)]

def jsonEscapeChar (c : Char) : List Char :=
  if c = '"' then ['\\', '"']
  else if c = '\\' then ['\\', '\\']
  else if c.toNat = 10 then ['\\', 'n']
  else if c.toNat = 13 then ['\\', 'r']
  else if c.toNat = 9 then ['\\', 't']
  else if c.toNat = 8 then ['\\', 'b']
  else if c.toNat = 12 then ['\\', 'f']
  else if c.toNat < 32 || 126 < c.toNat then
    if c.toNat < 65536 then uEscape c.toNat
    else
      uEscape (55296 + (c.toNat - 65536) / 1024) ++ uEscape (56320 + (c.toNat - 65536) % 1024)
  else [c]

def jsonString (s : String) : String :=
  "\"" ++ String.mk (s.data.foldr (fun c acc => jsonEscapeChar c ++ acc) []) ++ "\""

def joinComma : List String → String
  | [] => ""
  | [s] => s
  | s :: t :: rest => s ++ "," ++ joinComma (t :: rest)

def jsonStrList (ts : List String) : String :=
  "[" ++ joinComma (ts.map jsonString) ++ "]"

def jsonShowing (p : String × List String) : String :=
  "\x7b" ++ jsonString "date" ++ ":" ++ jsonString p.1 ++ ","
    ++ jsonString "times" ++ ":" ++ jsonStrList p.2 ++ "\x7d"

def jsonCinema (p : String × List (String × List String)) : String :=
  "\x7b" ++ jsonString "cinemaName" ++ ":" ++ jsonString p.1 ++ ","
    ++ jsonString "showings" ++ ":[" ++ joinComma (p.2.map jsonShowing) ++ "]\x7d"

def json_dumps_payload (cs : List (String × List (String × List String))) : String :=
  "[" ++ joinComma (cs.map jsonCinema) ++ "]"

/-- The walker `scrape_aggregated_showtimes` (lines 141-214): the returned string
(the serialized payload, or the `'N/A'` sentinel), paired with the list
of postbacks issued. -/
def scrape_aggregated_showtimes (initialStatus : Nat) (page : Page)
    (server : Nat → PostResp) : String × List FormData :=
  match scrapeShowtimesStructured initialStatus page server with
  | (some cs, posts) => (json_dumps_payload cs, posts)
  | (Option.none, posts) => ("N/A", posts)

/-- The `'showings'` list recorded for cinema `c` in a structured result
(empty when the result is the sentinel or the cinema is absent). -/
def payloadShowings (r : Option (List (String × List (String × List String))))
    (c : String) : List (String × List String) :=
  match r with
  | some cs => (dictGet? cs c).getD []
  | Option.none => []

/-- The `(dateText, parsed showtimes)` entries contributed by the first
`k` (successful) postbacks, starting at postback index `i`, for the given
remaining date options. -/
def processedDates (server : Nat → PostResp) :
    List (String × String) → Nat → Nat → List (String × ShowMap)
  | _, _, 0 => []
  | [], _, _ + 1 => []
  | d :: rest, i, k + 1 =>
    (d.2, parse_showtimes_from_html (server i).page.showtimesList)
      :: processedDates server rest (i + 1) k

/-! ## Concrete inputs used by witnesses and counterexamples -/

/-- A page fragment: one cinema anchor followed by one time block with a
duplicate, an unsorted pair and a whitespace-only label. -/
def exElems : List STElem :=
  [STElem.anchor (some " GSC Midvalley "),
    STElem.timesDiv ["12:30", " 10:00 ", "12:30", "  "]]

/-- A page fragment consisting of a single cinema anchor with no time
block after it. -/
def anchorOnly : List STElem := [STElem.anchor (some "Cinema X")]

/-- A prefix with no cinema anchor carrying bold text. -/
def pre8 : List STElem := [STElem.anchor Option.none, STElem.timesDiv ["09:00"]]

/-- An existing record for `Movie A` with a real genre and an old scrape
date (the spec §8 example). -/
def exA : Record :=
  [("Movie Title", PyVal.str "Movie A"), ("Genre", PyVal.str "Action"),
    ("Scrape Date", PyVal.str "2024-01-01")]

/-- A fresh record for `Movie A` whose genre extraction failed (sentinel)
but whose scrape date is new (the spec §8 example). -/
def frA : Record :=
  [("Movie Title", PyVal.str "Movie A"), ("Genre", NA),
    ("Scrape Date", PyVal.str "2024-02-01")]

/-- The one-movie existing collection of the spec §8 example. -/
def exColl : Collection := [(PyVal.str "Movie A", exA)]

/-- The result of merging `frA` into `exColl`: the genre survives, the
scrape date is refreshed. -/
def mergedA : Record :=
  [("Movie Title", PyVal.str "Movie A"), ("Genre", PyVal.str "Action"),
    ("Scrape Date", PyVal.str "2024-02-01")]

/-- A fresh record with a falsy (`'N/A'`) scrape-date value. -/
def frNA : Record :=
  [("Movie Title", PyVal.str "Movie A"), ("Scrape Date", NA)]

/-- First of two same-title fresh duplicates. -/
def dupm1 : Record :=
  [("Movie Title", PyVal.str "A"), ("Genre", PyVal.str "Action"),
    ("Scrape Date", PyVal.str "2024-01-01 00:00:00")]

/-- Second duplicate: sentinel genre, fresh scrape date. -/
def dupm2 : Record :=
  [("Movie Title", PyVal.str "A"), ("Genre", NA),
    ("Scrape Date", PyVal.str "2024-02-01 00:00:00")]

/-- What the duplicates collide to: `dupm1` updated field-wise by
`dupm2` — not `dupm2` itself. -/
def mergedDup : Record :=
  [("Movie Title", PyVal.str "A"), ("Genre", PyVal.str "Action"),
    ("Scrape Date", PyVal.str "2024-02-01 00:00:00")]

/-- Existing records for the ordering witness: inserted out of title
order. -/
def recB : Record :=
  [("Movie Title", PyVal.str "B"), ("Scrape Date", PyVal.str "2024-01-01")]

def recA : Record :=
  [("Movie Title", PyVal.str "A"), ("Scrape Date", PyVal.str "2024-01-01")]

def recC : Record :=
  [("Movie Title", PyVal.str "C"), ("Scrape Date", PyVal.str "2024-02-01")]

/-- An existing collection whose iteration order is not title order. -/
def unsortedColl : Collection := [(PyVal.str "B", recB), (PyVal.str "A", recA)]

/-- The merged collection produced by updating `exColl` with `frA`. -/
def mergedColl : Collection := [(PyVal.str "Movie A", mergedA)]

/-- What merging `frNA` into `exColl` produces: the sentinel lands in the
scrape-date field, although the existing value was real. -/
def mergedNA : Record :=
  [("Movie Title", PyVal.str "Movie A"), ("Genre", PyVal.str "Action"),
    ("Scrape Date", NA)]

/-- The merged collection produced by the colliding duplicates. -/
def dupColl : Collection := [(PyVal.str "A", mergedDup)]

/-- An initial showtime page without a date-selector control. -/
def noDropPage : Page := ⟨Option.none, Option.none, Option.none, []⟩

/-- An initial showtime page whose date selector has no option with a
`value` attribute. -/
def noValPage : Page :=
  ⟨some [⟨Option.none, "Mon"⟩, ⟨Option.none, "Tue"⟩], some "vs0", some "ev0", []⟩

/-- A server whose every postback succeeds with an empty page. -/
def trivialServer : Nat → PostResp :=
  fun _ => ⟨200, ⟨Option.none, Option.none, Option.none, []⟩⟩

/-- The pre-rendered showtimes of the walker witness's initial page. -/
def monElems : List STElem :=
  [STElem.anchor (some "Cinema One"), STElem.timesDiv ["10:00"]]

/-- The showtimes delivered by the first (successful) postback. -/
def tueElems : List STElem :=
  [STElem.anchor (some "Cinema One"), STElem.timesDiv ["14:00"]]

/-- The walker witness's initial page: three selectable dates. -/
def wPage : Page :=
  ⟨some [⟨some "v1", "Mon"⟩, ⟨some "v2", "Tue"⟩, ⟨some "v3", "Wed"⟩],
    some "vs0", some "ev0", monElems⟩

/-- The walker witness's server: the first postback succeeds, the second
fails with a 500. -/
def wServer : Nat → PostResp :=
  fun i =>
    if i = 0 then ⟨200, ⟨Option.none, some "vs1", some "ev1", tueElems⟩⟩
    else ⟨500, ⟨Option.none, Option.none, Option.none, []⟩⟩

/-- A suffix introducing a cinema with one time block. -/
def suf8 : List STElem := [STElem.anchor (some "C"), STElem.timesDiv ["11:00"]]

/-! ## Theorems: order lemmas for the Python string comparison -/

theorem strLtB_irrefl : ∀ l : List Char, strLtB l l = false := by
  intro l
  induction l with
  | nil => simp [strLtB]
  | cons x xs ih => simp [strLtB, ih]

theorem strLtB_trans : ∀ (a b c : List Char),
    strLtB a b = true → strLtB b c = true → strLtB a c = true := by
  intro a
  induction a with
  | nil =>
    intro b c hab hbc
    cases b with
    | nil => simp [strLtB] at hab
    | cons y ys =>
      cases c with
      | nil => simp [strLtB] at hbc
      | cons z zs => simp [strLtB]
  | cons x xs ih =>
    intro b c hab hbc
    cases b with
    | nil => simp [strLtB] at hab
    | cons y ys =>
      cases c with
      | nil => simp [strLtB] at hbc
      | cons z zs =>
        simp only [strLtB] at hab hbc ⊢
        rcases Nat.lt_trichotomy x.toNat y.toNat with h1 | h1 | h1
        · rcases Nat.lt_trichotomy y.toNat z.toNat with h2 | h2 | h2
          · have hxz : x.toNat < z.toNat := Nat.lt_trans h1 h2
            simp [hxz]
          · have hxz : x.toNat < z.toNat := h2 ▸ h1
            simp [hxz]
          · rw [if_neg (Nat.lt_asymm h2), if_pos h2] at hbc
            exact absurd hbc (by simp)
        · rcases Nat.lt_trichotomy y.toNat z.toNat with h2 | h2 | h2
          · have hxz : x.toNat < z.toNat := h1 ▸ h2
            simp [hxz]
          · have hxz : x.toNat = z.toNat := h1.trans h2
            rw [if_neg (by omega), if_neg (by omega)] at hab hbc ⊢
            exact ih ys zs hab hbc
          · rw [if_neg (Nat.lt_asymm h2), if_pos h2] at hbc
            exact absurd hbc (by simp)
        · rw [if_neg (Nat.lt_asymm h1), if_pos h1] at hab
          exact absurd hab (by simp)

theorem strLtB_eq_of_not_lt : ∀ (a b : List Char),
    strLtB a b = false → strLtB b a = false → a = b := by
  intro a
  induction a with
  | nil =>
    intro b hab _
    cases b with
    | nil => rfl
    | cons y ys => simp [strLtB] at hab
  | cons x xs ih =>
    intro b hab hba
    cases b with
    | nil => simp [strLtB] at hba
    | cons y ys =>
      simp only [strLtB] at hab hba
      rcases Nat.lt_trichotomy x.toNat y.toNat with h1 | h1 | h1
      · rw [if_pos h1] at hab
        exact absurd hab (by simp)
      · have hc : x = y := Char.eq_of_val_eq (UInt32.ext h1)
        subst hc
        rw [if_neg (by omega), if_neg (by omega)] at hab hba
        rw [ih ys hab hba]
      · rw [if_pos h1] at hba
        exact absurd hba (by simp)

theorem strLtB_false_trans (a b c : List Char)
    (h1 : strLtB a b = false) (h2 : strLtB b c = false) : strLtB a c = false := by
  by_contra hx
  have hac : strLtB a c = true := by
    cases h : strLtB a c
    · exact absurd h hx
    · rfl
  cases hba : strLtB b a with
  | true =>
    have : strLtB b c = true := strLtB_trans b a c hba hac
    rw [h2] at this
    exact Bool.false_ne_true this
  | false =>
    have heq : b = a := strLtB_eq_of_not_lt b a hba h1
    subst heq
    rw [h2] at hac
    exact Bool.false_ne_true hac

theorem pyStrLe_total (s t : String) : pyStrLe s t = true ∨ pyStrLe t s = true := by
  simp only [pyStrLe, pyStrLt, Bool.not_eq_true']
  cases h1 : strLtB t.data s.data with
  | false => exact Or.inl rfl
  | true =>
    cases h2 : strLtB s.data t.data with
    | false => exact Or.inr rfl
    | true =>
      have := strLtB_trans t.data s.data t.data h1 h2
      rw [strLtB_irrefl t.data] at this
      exact absurd this (by simp)

theorem pyStrLe_trans {s t u : String}
    (h1 : pyStrLe s t = true) (h2 : pyStrLe t u = true) : pyStrLe s u = true := by
  simp only [pyStrLe, pyStrLt, Bool.not_eq_true'] at h1 h2 ⊢
  exact strLtB_false_trans u.data t.data s.data h2 h1

theorem pyStrLt_of_le_of_ne {s t : String}
    (hle : pyStrLe s t = true) (hne : s ≠ t) : pyStrLt s t = true := by
  simp only [pyStrLe, pyStrLt, Bool.not_eq_true'] at hle ⊢
  cases h : strLtB s.data t.data with
  | true => rfl
  | false =>
    have : s.data = t.data := strLtB_eq_of_not_lt s.data t.data h hle
    exact absurd (congrArg String.mk this) hne

theorem pyLeB_total (a b : PyVal) : pyLeB a b = true ∨ pyLeB b a = true := by
  cases a <;> cases b <;> simp [pyLeB] <;> first
    | exact pyStrLe_total _ _
    | omega

theorem pyLeB_trans {a b c : PyVal}
    (h1 : pyLeB a b = true) (h2 : pyLeB b c = true) : pyLeB a c = true := by
  cases a <;> cases b <;> cases c <;>
    simp [pyLeB] at h1 h2 ⊢ <;> first
    | exact pyStrLe_trans h1 h2
    | omega

instance : IsTotal Record recordLe :=
  ⟨fun a b => pyLeB_total (titleKey a) (titleKey b)⟩

instance : IsTrans Record recordLe :=
  ⟨fun _ _ _ h1 h2 => pyLeB_trans h1 h2⟩

/-! ## Theorems: the truncation policy (claim C2) -/

theorem length_truncate_showtimes (s : String) :
    (truncate_showtimes s).length ≤ SHEETS_CELL_CHAR_LIMIT + TRUNCATION_MARKER.length := by
  unfold truncate_showtimes
  by_cases h : s.length > SHEETS_CELL_CHAR_LIMIT
  · rw [if_pos h]
    rw [String.length_append, String.length_mk]
    have h2 : (s.data.take SHEETS_CELL_CHAR_LIMIT).length ≤ SHEETS_CELL_CHAR_LIMIT :=
      List.length_take_le SHEETS_CELL_CHAR_LIMIT s.data
    omega
  · rw [if_neg h]
    omega

/-- Claim C2, counterexample: the stored showtimes serialization can
exceed `SHEETS_CELL_CHAR_LIMIT`.  At a payload of 49901 characters the
code stores the 49900-character budget-length slice with the 14-character
marker appended, 49914 characters in all — more than the 49900 budget
(though still under the sink's 50000 hard limit). -/
theorem claim2_counterexample :
    SHEETS_CELL_CHAR_LIMIT < (truncate_showtimes bigPayload).length := by
  have hlen : bigPayload.length = 49901 := by
    show (List.replicate 49901 'a').length = 49901
    rw [List.length_replicate]
  have hgt : bigPayload.length > SHEETS_CELL_CHAR_LIMIT := by
    rw [hlen]
    norm_num [SHEETS_CELL_CHAR_LIMIT]
  unfold truncate_showtimes
  rw [if_pos hgt, String.length_append, String.length_mk]
  have htake : (bigPayload.data.take SHEETS_CELL_CHAR_LIMIT).length = 49900 := by
    show ((List.replicate 49901 'a').take SHEETS_CELL_CHAR_LIMIT).length = 49900
    rw [List.take_replicate, List.length_replicate]
    norm_num [SHEETS_CELL_CHAR_LIMIT]
  rw [htake]
  have hm : TRUNCATION_MARKER.length = 14 := rfl
  rw [hm]
  norm_num [SHEETS_CELL_CHAR_LIMIT]

/-- Claim C2, amended: the stored showtimes payload never exceeds the
character budget *plus the truncation marker's length* (49914 characters,
still below the sink's 50000-character hard limit); and whenever the
unbounded serialization's length exceeds the budget, the stored value
equals the prefix of budget length followed by the literal truncation
marker. -/
theorem claim2_amended (s : String) :
    (truncate_showtimes s).length ≤ SHEETS_CELL_CHAR_LIMIT + TRUNCATION_MARKER.length ∧
    (SHEETS_CELL_CHAR_LIMIT < s.length →
      truncate_showtimes s
        = String.mk (s.data.take SHEETS_CELL_CHAR_LIMIT) ++ TRUNCATION_MARKER) := by
  refine ⟨length_truncate_showtimes s, fun h => ?_⟩
  unfold truncate_showtimes
  rw [if_pos h]

/-- Claim C2, witness: the amended statement instantiated at the concrete
oversize payload. -/
theorem claim2_amended_witness :
    (truncate_showtimes bigPayload).length
        ≤ SHEETS_CELL_CHAR_LIMIT + TRUNCATION_MARKER.length ∧
    truncate_showtimes bigPayload
      = String.mk (bigPayload.data.take SHEETS_CELL_CHAR_LIMIT) ++ TRUNCATION_MARKER :=
  ⟨(claim2_amended bigPayload).1, (claim2_amended bigPayload).2 (by
    show SHEETS_CELL_CHAR_LIMIT < (List.replicate 49901 'a').length
    rw [List.length_replicate]
    norm_num [SHEETS_CELL_CHAR_LIMIT])⟩

/-! ## Theorems: parse_showtimes_from_html (claims C7, C8) -/

instance : IsTotal String strLeP := ⟨pyStrLe_total⟩

instance : IsTrans String strLeP := ⟨fun _ _ _ => pyStrLe_trans⟩

theorem pySortedSet_nodup (xs : List String) : (pySortedSet xs).Nodup :=
  ((List.perm_insertionSort strLeP xs.dedup).nodup_iff).mpr (List.nodup_dedup xs)

theorem pySortedSet_pairwise_lt (xs : List String) :
    (pySortedSet xs).Pairwise (fun a b => pyStrLt a b = true) := by
  have hs : (pySortedSet xs).Pairwise strLeP := List.sorted_insertionSort strLeP xs.dedup
  have hn : (pySortedSet xs).Pairwise (fun a b => a ≠ b) := pySortedSet_nodup xs
  exact (hs.and hn).imp (fun h => pyStrLt_of_le_of_ne h.1 h.2)

/-- Every step of the parse loop preserves the presence of a cinema key. -/
theorem parseStep_key_mono (st : ShowMap × String) (e : STElem) (c : String)
    (h : ∃ ts, (c, ts) ∈ st.1) : ∃ ts, (c, ts) ∈ (parseStep st e).1 := by
  rcases h with ⟨ts, hts⟩
  cases e with
  | anchor bold =>
    cases bold with
    | some btext =>
      simp only [parseStep]
      by_cases hmem : dictMem st.1 (pyStrip btext) = true
      · rw [if_pos hmem]
        exact ⟨ts, hts⟩
      · rw [if_neg hmem]
        exact ⟨ts, List.mem_append_left _ hts⟩
    | none => exact ⟨ts, hts⟩
  | timesDiv raws =>
    simp only [parseStep]
    by_cases hcond : ((raws.map pyStrip).filter fun s => decide (s ≠ "")) ≠ [] ∧ st.2 ≠ "N/A"
    · rw [if_pos hcond]
      by_cases hc : c = st.2
      · refine ⟨ts ++ ((raws.map pyStrip).filter fun s => decide (s ≠ "")), ?_⟩
        have := List.mem_map_of_mem
          (fun p : String × List String =>
            if p.1 = st.2 then (p.1, p.2 ++ ((raws.map pyStrip).filter fun s => decide (s ≠ ""))) else p)
          hts
        simpa [hc] using this
      · refine ⟨ts, ?_⟩
        have := List.mem_map_of_mem
          (fun p : String × List String =>
            if p.1 = st.2 then (p.1, p.2 ++ ((raws.map pyStrip).filter fun s => decide (s ≠ ""))) else p)
          hts
        simpa [hc] using this
    · rw [if_neg hcond]
      exact ⟨ts, hts⟩

theorem parse_key_mono (elems : List STElem) :
    ∀ (st : ShowMap × String) (c : String), (∃ ts, (c, ts) ∈ st.1) →
      ∃ ts, (c, ts) ∈ (elems.foldl parseStep st).1 := by
  induction elems with
  | nil => intro st c h; exact h
  | cons e rest ih =>
    intro st c h
    exact ih (parseStep st e) c (parseStep_key_mono st e c h)

/-- A found entry is a member: `dictGet? d k = some v` implies `(k, v) ∈ d`. -/
theorem dictGet?_mem {κ α : Type} [DecidableEq κ] {d : List (κ × α)} {k : κ} {v : α}
    (h : dictGet? d k = some v) : (k, v) ∈ d := by
  induction d with
  | nil => simp [dictGet?] at h
  | cons p ps ih =>
    simp only [dictGet?] at h
    by_cases hk : p.1 = k
    · rw [if_pos hk] at h
      have hpv : p = (k, v) := by
        obtain ⟨a, b⟩ := p
        simp only at hk h
        simp [hk, Option.some_inj.mp h]
      rw [← hpv]
      exact List.mem_cons_self _ _
    · rw [if_neg hk] at h
      exact List.mem_cons_of_mem p (ih h)

/-- An anchor with bold text always leaves its (trimmed) cinema name as a
key of the parse state. -/
theorem parse_anchor_key (elems : List STElem) :
    ∀ (st : ShowMap × String) (b : String), STElem.anchor (some b) ∈ elems →
      ∃ ts, (pyStrip b, ts) ∈ (elems.foldl parseStep st).1 := by
  induction elems with
  | nil => intro st b h; simp at h
  | cons e rest ih =>
    intro st b h
    rcases List.mem_cons.mp h with he | he
    · subst he
      apply parse_key_mono rest (parseStep st (STElem.anchor (some b)))
      simp only [parseStep]
      by_cases hmem : dictMem st.1 (pyStrip b) = true
      · rw [if_pos hmem]
        rcases Option.isSome_iff_exists.mp hmem with ⟨v, hv⟩
        exact ⟨v, dictGet?_mem hv⟩
      · rw [if_neg hmem]
        exact ⟨[], List.mem_append_right _ (List.mem_singleton.mpr rfl)⟩
    · exact ih (parseStep st e) b he

/-- If the page fragment has no time block at all, every collected time
list is empty. -/
theorem parse_no_div_empty (elems : List STElem) :
    ∀ (st : ShowMap × String), (∀ raws, STElem.timesDiv raws ∉ elems) →
      (∀ p ∈ st.1, p.2 = ([] : List String)) →
      ∀ p ∈ (elems.foldl parseStep st).1, p.2 = ([] : List String) := by
  induction elems with
  | nil => intro st _ hst; exact hst
  | cons e rest ih =>
    intro st hdiv hst
    apply ih (parseStep st e) (fun raws hr => hdiv raws (List.mem_cons_of_mem e hr))
    cases e with
    | anchor bold =>
      cases bold with
      | some btext =>
        simp only [parseStep]
        by_cases hmem : dictMem st.1 (pyStrip btext) = true
        · rw [if_pos hmem]
          exact hst
        · rw [if_neg hmem]
          intro p hp
          rcases List.mem_append.mp hp with hp2 | hp2
          · exact hst p hp2
          · rw [List.mem_singleton.mp hp2]
      | none => exact hst
    | timesDiv raws => exact absurd (List.mem_cons_self _ _) (hdiv raws)

/-- With no bold cinema anchor processed yet, the parse state stays at its
initial value. -/
theorem parse_no_bold_state (pre : List STElem) :
    (∀ b, STElem.anchor (some b) ∉ pre) →
      pre.foldl parseStep ([], "N/A") = (([] : ShowMap), "N/A") := by
  induction pre with
  | nil => intro _; rfl
  | cons e rest ih =>
    intro h
    have hstep : parseStep (([] : ShowMap), "N/A") e = (([] : ShowMap), "N/A") := by
      cases e with
      | anchor bold =>
        cases bold with
        | some btext => exact absurd (List.mem_cons_self _ _) (h btext)
        | none => rfl
      | timesDiv raws => simp [parseStep]
    rw [List.foldl_cons, hstep]
    exact ih (fun b hb => h b (List.mem_cons_of_mem e hb))

/-- Claim C7: in every single-page extraction of
`parse_showtimes_from_html`, each cinema's time-label list contains no
duplicate labels and is sorted in (strictly) ascending lexicographic
order. -/
theorem claim7_parse_times_nodup_sorted (elems : List STElem)
    (p : String × List String) (hp : p ∈ parse_showtimes_from_html elems) :
    p.2.Nodup ∧ p.2.Pairwise (fun a b => pyStrLt a b = true) := by
  simp only [parse_showtimes_from_html] at hp
  rcases List.mem_map.mp hp with ⟨q, _, hq⟩
  rw [← hq]
  exact ⟨pySortedSet_nodup q.2, pySortedSet_pairwise_lt q.2⟩

/-- Claim C7, witness: the single-cinema page fragment `exElems` yields
the deduplicated, sorted time list. -/
theorem claim7_witness :
    ("GSC Midvalley", ["10:00", "12:30"]) ∈ parse_showtimes_from_html exElems ∧
    (["10:00", "12:30"] : List String).Nodup ∧
    (["10:00", "12:30"] : List String).Pairwise (fun a b => pyStrLt a b = true) := by
  have hm : ("GSC Midvalley", ["10:00", "12:30"]) ∈ parse_showtimes_from_html exElems := by
    decide
  exact ⟨hm, (claim7_parse_times_nodup_sorted exElems _ hm).1,
    (claim7_parse_times_nodup_sorted exElems _ hm).2⟩

/-- Claim C8, counterexample: a cinema-name anchor followed by no time
block is *not* ignored — it contributes an entry (with an empty time
list) to the extraction result. -/
theorem claim8_counterexample :
    parse_showtimes_from_html anchorOnly = [("Cinema X", [])] ∧
    parse_showtimes_from_html anchorOnly ≠ [] := by decide

/-- Claim C8, amended: a cinema introduction (cinema-name anchor)
contributes an entry to the extraction result even when no time block
follows it — with an empty time list (first two conjuncts); and a time
block encountered while no current cinema is set is ignored: removing it
does not change the extraction result, so its labels appear nowhere
(third conjunct). -/
theorem claim8_amended :
    (∀ (elems : List STElem) (b : String), STElem.anchor (some b) ∈ elems →
      ∃ ts, (pyStrip b, ts) ∈ parse_showtimes_from_html elems) ∧
    (∀ elems : List STElem, (∀ raws, STElem.timesDiv raws ∉ elems) →
      ∀ p ∈ parse_showtimes_from_html elems, p.2 = ([] : List String)) ∧
    (∀ (pre suf : List STElem) (raws : List String),
      (∀ b, STElem.anchor (some b) ∉ pre) →
      parse_showtimes_from_html (pre ++ STElem.timesDiv raws :: suf)
        = parse_showtimes_from_html (pre ++ suf)) := by
  refine ⟨?_, ?_, ?_⟩
  · intro elems b h
    rcases parse_anchor_key elems ([], "N/A") b h with ⟨ts, hts⟩
    exact ⟨pySortedSet ts, by
      simp only [parse_showtimes_from_html]
      exact List.mem_map_of_mem (fun p => (p.1, pySortedSet p.2)) hts⟩
  · intro elems hdiv p hp
    simp only [parse_showtimes_from_html] at hp
    rcases List.mem_map.mp hp with ⟨q, hq1, hq2⟩
    have : q.2 = ([] : List String) :=
      parse_no_div_empty elems ([], "N/A") hdiv (by simp) q hq1
    rw [← hq2]
    simp [this, pySortedSet]
  · intro pre suf raws hpre
    simp only [parse_showtimes_from_html, List.foldl_append, List.foldl_cons]
    rw [parse_no_bold_state pre hpre]
    have : parseStep (([] : ShowMap), "N/A") (STElem.timesDiv raws)
        = (([] : ShowMap), "N/A") := by simp [parseStep]
    rw [this]

/-- Claim C8, witness: the amended statement instantiated — the lone
anchor of `anchorOnly` contributes an (empty) entry, and a time block
before any bold anchor (`pre8`) is ignored. -/
theorem claim8_amended_witness :
    (∃ ts, ("Cinema X", ts) ∈ parse_showtimes_from_html anchorOnly) ∧
    (∀ p ∈ parse_showtimes_from_html anchorOnly, p.2 = ([] : List String)) ∧
    parse_showtimes_from_html (pre8 ++ STElem.timesDiv ["10:00"] :: suf8)
      = parse_showtimes_from_html (pre8 ++ suf8) := by
  refine ⟨?_, ?_, ?_⟩
  · exact claim8_amended.1 anchorOnly "Cinema X" (by decide)
  · exact claim8_amended.2.1 anchorOnly (by intro raws; simp [anchorOnly])
  · exact claim8_amended.2.2 pre8 suf8 ["10:00"] (by intro b; simp [pre8])

/-! ## Theorems: dict operation lemmas -/

theorem dictGet?_eq_none_iff {κ α : Type} [DecidableEq κ] (d : List (κ × α)) (k : κ) :
    dictGet? d k = Option.none ↔ k ∉ d.map (·.1) := by
  induction d with
  | nil => simp [dictGet?]
  | cons p ps ih =>
    by_cases hk : p.1 = k
    · simp [dictGet?, hk]
    · have hstep : dictGet? (p :: ps) k = dictGet? ps k := by
        simp [dictGet?, hk]
      rw [hstep, ih]
      simp only [List.map_cons, List.mem_cons]
      constructor
      · intro hnone hor
        rcases hor with h1 | h1
        · exact hk h1.symm
        · exact hnone h1
      · intro hall h1
        exact hall (Or.inr h1)

theorem dictGet?_of_not_mem {κ α : Type} [DecidableEq κ] {d : List (κ × α)} {k : κ}
    (h : dictMem d k = false) : dictGet? d k = Option.none := by
  unfold dictMem at h
  cases hg : dictGet? d k with
  | none => rfl
  | some v => rw [hg] at h; simp at h

theorem dictGet?_mapReplace {κ α : Type} [DecidableEq κ] (d : List (κ × α)) (k : κ) (v : α)
    (hmem : dictMem d k = true) :
    dictGet? (d.map fun p => if p.1 = k then (k, v) else p) k = some v := by
  induction d with
  | nil => simp [dictMem, dictGet?] at hmem
  | cons p ps ih =>
    by_cases hk : p.1 = k
    · simp [dictGet?, hk]
    · have hmem2 : dictMem ps k = true := by
        simpa [dictMem, dictGet?, hk] using hmem
      simp [dictGet?, hk, ih hmem2]

theorem dictGet?_append_single {κ α : Type} [DecidableEq κ] (d : List (κ × α)) (k : κ) (v : α)
    (hmem : dictMem d k = false) :
    dictGet? (d ++ [(k, v)]) k = some v := by
  induction d with
  | nil => simp [dictGet?]
  | cons p ps ih =>
    have hk : ¬p.1 = k := by
      intro h
      simp [dictMem, dictGet?, h] at hmem
    have hmem2 : dictMem ps k = false := by
      simpa [dictMem, dictGet?, hk] using hmem
    simp [dictGet?, hk, ih hmem2]

theorem dictGet?_dictSet_self {κ α : Type} [DecidableEq κ] (d : List (κ × α)) (k : κ) (v : α) :
    dictGet? (dictSet d k v) k = some v := by
  unfold dictSet
  by_cases hmem : dictMem d k = true
  · rw [if_pos hmem]
    exact dictGet?_mapReplace d k v hmem
  · rw [if_neg hmem]
    exact dictGet?_append_single d k v (by
      cases hx : dictMem d k
      · rfl
      · exact absurd hx hmem)

theorem dictGet?_mapReplace_ne {κ α : Type} [DecidableEq κ] (d : List (κ × α)) (k k2 : κ)
    (v : α) (h : k2 ≠ k) :
    dictGet? (d.map fun p => if p.1 = k then (k, v) else p) k2 = dictGet? d k2 := by
  induction d with
  | nil => rfl
  | cons p ps ih =>
    by_cases hk : p.1 = k
    · have hne2 : ¬(k = k2) := fun he => h he.symm
      have hpk2 : ¬(p.1 = k2) := by
        rw [hk]
        exact hne2
      simp only [List.map_cons, if_pos hk, dictGet?, if_neg hne2, if_neg hpk2]
      exact ih
    · simp only [List.map_cons, if_neg hk, dictGet?]
      by_cases hk2 : p.1 = k2
      · simp [hk2]
      · simp [hk2, ih]

theorem dictGet?_append_single_ne {κ α : Type} [DecidableEq κ] (d : List (κ × α)) (k k2 : κ)
    (v : α) (h : k2 ≠ k) : dictGet? (d ++ [(k, v)]) k2 = dictGet? d k2 := by
  induction d with
  | nil =>
    simp [dictGet?]
    intro he
    exact absurd he.symm h
  | cons p ps ih =>
    simp only [List.cons_append, dictGet?]
    by_cases hk2 : p.1 = k2
    · simp [hk2]
    · simp [hk2, ih]

theorem dictGet?_dictSet_ne {κ α : Type} [DecidableEq κ] (d : List (κ × α)) (k k2 : κ) (v : α)
    (h : k2 ≠ k) : dictGet? (dictSet d k v) k2 = dictGet? d k2 := by
  unfold dictSet
  by_cases hmem : dictMem d k = true
  · rw [if_pos hmem]
    exact dictGet?_mapReplace_ne d k k2 v h
  · rw [if_neg hmem]
    exact dictGet?_append_single_ne d k k2 v h

theorem mem_dictSet {κ α : Type} [DecidableEq κ] {d : List (κ × α)} {k : κ} {v : α}
    {q : κ × α} (hq : q ∈ dictSet d k v) : q = (k, v) ∨ (q ∈ d ∧ q.1 ≠ k) := by
  unfold dictSet at hq
  by_cases hmem : dictMem d k = true
  · rw [if_pos hmem] at hq
    rcases List.mem_map.mp hq with ⟨p, hp, hpq⟩
    by_cases hk : p.1 = k
    · left
      rw [← hpq]
      simp [hk]
    · right
      rw [← hpq]
      simp only [if_neg hk]
      exact ⟨hp, hk⟩
  · rw [if_neg hmem] at hq
    rcases List.mem_append.mp hq with hcase | hcase
    · right
      refine ⟨hcase, fun hk => ?_⟩
      have hkeys : k ∈ d.map (·.1) := hk ▸ List.mem_map_of_mem (·.1) hcase
      have hnone : dictGet? d k = Option.none := dictGet?_of_not_mem (by
        cases hx : dictMem d k
        · rfl
        · exact absurd hx hmem)
      exact absurd hkeys ((dictGet?_eq_none_iff d k).mp hnone)
    · left
      simpa using hcase

theorem keys_dictSet_mem {κ α : Type} [DecidableEq κ] (d : List (κ × α)) (k : κ) (v : α)
    (hmem : dictMem d k = true) :
    (dictSet d k v).map (·.1) = d.map (·.1) := by
  unfold dictSet
  rw [if_pos hmem, List.map_map]
  apply List.map_congr_left
  intro p _
  by_cases hk : p.1 = k
  · simp [Function.comp, hk]
  · simp [Function.comp, hk]

theorem keys_dictSet_not_mem {κ α : Type} [DecidableEq κ] (d : List (κ × α)) (k : κ) (v : α)
    (hmem : dictMem d k = false) :
    (dictSet d k v).map (·.1) = d.map (·.1) ++ [k] := by
  unfold dictSet
  rw [if_neg (by simp [hmem]), List.map_append]
  rfl

theorem nodup_keys_dictSet {κ α : Type} [DecidableEq κ] (d : List (κ × α)) (k : κ) (v : α)
    (h : (d.map (·.1)).Nodup) : ((dictSet d k v).map (·.1)).Nodup := by
  by_cases hmem : dictMem d k = true
  · rw [keys_dictSet_mem d k v hmem]
    exact h
  · have hmemf : dictMem d k = false := by
      cases hx : dictMem d k
      · rfl
      · exact absurd hx hmem
    rw [keys_dictSet_not_mem d k v hmemf]
    have hnk : k ∉ d.map (·.1) :=
      (dictGet?_eq_none_iff d k).mp (dictGet?_of_not_mem hmemf)
    simp [List.nodup_append, h, hnk]

/-! ## Theorems: characterization of the merge loop -/

theorem mergeFold_cons (acc : Collection) (m : Record) (fs : List Record) (U : Collection) :
    mergeFold acc (m :: fs) = some U ↔
      ∃ acc2, mergeStep acc m = some acc2 ∧ mergeFold acc2 fs = some U := by
  constructor
  · intro h
    cases hs : mergeStep acc m with
    | none =>
      rw [mergeFold, List.foldlM_cons, hs] at h
      simp at h
    | some acc2 =>
      rw [mergeFold, List.foldlM_cons, hs] at h
      exact ⟨acc2, rfl, h⟩
  · rintro ⟨acc2, hs, hrest⟩
    rw [mergeFold, List.foldlM_cons, hs]
    exact hrest

theorem mergeStep_title {acc acc2 : Collection} {m : Record}
    (h : mergeStep acc m = some acc2) :
    ∃ tm, dictGet? m "Movie Title" = some tm := by
  cases hg : dictGet? m "Movie Title" with
  | none =>
    exfalso
    simp [mergeStep, hg] at h
  | some tm => exact ⟨tm, hg ▸ rfl⟩

theorem mergeStep_get_other {acc acc2 : Collection} {m : Record} {t tm : PyVal}
    (hm : dictGet? m "Movie Title" = some tm) (hne : tm ≠ t)
    (h : mergeStep acc m = some acc2) :
    dictGet? acc2 t = dictGet? acc t := by
  cases hg : dictGet? acc tm with
  | some old =>
    cases hu : updateRecord old m with
    | none =>
      exfalso
      simp [mergeStep, hm, hg, hu] at h
    | some r =>
      simp only [mergeStep, hm, hg, hu, Option.some_inj] at h
      rw [← h, dictGet?_dictSet_ne acc tm t r (Ne.symm hne)]
  | none =>
    simp only [mergeStep, hm, hg, Option.some_inj] at h
    rw [← h, dictGet?_dictSet_ne acc tm t m (Ne.symm hne)]

theorem mergeStep_get_self {acc acc2 : Collection} {m : Record} {t : PyVal}
    (hm : dictGet? m "Movie Title" = some t)
    (h : mergeStep acc m = some acc2) :
    ∃ r, applyFresh (dictGet? acc t) m = some r ∧ dictGet? acc2 t = some r := by
  cases hg : dictGet? acc t with
  | some old =>
    cases hu : updateRecord old m with
    | none =>
      exfalso
      simp [mergeStep, hm, hg, hu] at h
    | some r =>
      simp only [mergeStep, hm, hg, hu, Option.some_inj] at h
      refine ⟨r, by simp [applyFresh, hu], ?_⟩
      rw [← h, dictGet?_dictSet_self]
  | none =>
    simp only [mergeStep, hm, hg, Option.some_inj] at h
    refine ⟨m, by simp [applyFresh], ?_⟩
    rw [← h, dictGet?_dictSet_self]

/-- The entry of the merged collection at any title `t` is the fold of
`applyFresh` over exactly the fresh records carrying title `t`, in batch
order, started from the existing entry. -/
theorem mergeFold_collapseAt (fresh : List Record) :
    ∀ (acc U : Collection) (t : PyVal), mergeFold acc fresh = some U →
      collapseAt (dictGet? acc t)
          (fresh.filter fun m => decide (dictGet? m "Movie Title" = some t))
        = some (dictGet? U t) := by
  induction fresh with
  | nil =>
    intro acc U t h
    have hU : acc = U := Option.some_inj.mp h
    rw [← hU]
    rfl
  | cons m fs ih =>
    intro acc U t h
    rcases (mergeFold_cons acc m fs U).mp h with ⟨acc2, hstep, hrest⟩
    rcases mergeStep_title hstep with ⟨tm, htm⟩
    by_cases hteq : tm = t
    · subst hteq
      rcases mergeStep_get_self htm hstep with ⟨r, happ, hget⟩
      rw [List.filter_cons_of_pos (by simp [htm])]
      have hcoll : collapseAt (dictGet? acc tm)
          (m :: fs.filter fun m2 => decide (dictGet? m2 "Movie Title" = some tm))
          = collapseAt (some r)
            (fs.filter fun m2 => decide (dictGet? m2 "Movie Title" = some tm)) := by
        simp only [collapseAt, happ]
      rw [hcoll]
      have hr := ih acc2 U tm hrest
      rw [hget] at hr
      exact hr
    · rw [List.filter_cons_of_neg (by simp [htm, hteq])]
      have hacc : dictGet? acc2 t = dictGet? acc t := mergeStep_get_other htm hteq hstep
      have hr := ih acc2 U t hrest
      rw [hacc] at hr
      exact hr

/-! ## Theorems: the field-level behavior of updateRecord -/

theorem dictGet?_eq_none_of_not_mem_keys {κ α : Type} [DecidableEq κ] {d : List (κ × α)}
    {k : κ} (h : k ∉ d.map (·.1)) : dictGet? d k = Option.none :=
  (dictGet?_eq_none_iff d k).mpr h

theorem mergeFields_get (movie : Record) :
    ∀ old : Record, (movie.map (·.1)).Nodup → ∀ k : String,
      dictGet? (movie.foldl
          (fun r kv => if pyTruthy kv.2 ∧ kv.2 ≠ NA then dictSet r kv.1 kv.2 else r) old) k
        = match dictGet? movie k with
          | some v => if pyTruthy v ∧ v ≠ NA then some v else dictGet? old k
          | Option.none => dictGet? old k := by
  induction movie with
  | nil =>
    intro old _ k
    rfl
  | cons kv m2 ih =>
    intro old hnd k
    have hnd2 : (m2.map (·.1)).Nodup := (List.nodup_cons.mp (by simpa using hnd)).2
    simp only [List.foldl_cons]
    rw [ih (if pyTruthy kv.2 ∧ kv.2 ≠ NA then dictSet old kv.1 kv.2 else old) hnd2 k]
    by_cases hke : k = kv.1
    · have hnotin : kv.1 ∉ m2.map (·.1) := (List.nodup_cons.mp (by simpa using hnd)).1
      have hm2 : dictGet? m2 k = Option.none :=
        dictGet?_eq_none_of_not_mem_keys (hke ▸ hnotin)
      have hget : dictGet? (kv :: m2) k = some kv.2 := by
        simp [dictGet?, hke.symm]
      rw [hm2, hget]
      by_cases hc : pyTruthy kv.2 ∧ kv.2 ≠ NA
      · simp only [if_pos hc]
        rw [hke, dictGet?_dictSet_self]
      · simp only [if_neg hc]
    · have hke2 : ¬(kv.1 = k) := fun he => hke (Eq.symm he)
      have hget : dictGet? (kv :: m2) k = dictGet? m2 k := by
        simp [dictGet?, hke2]
      have hacc : dictGet? (if pyTruthy kv.2 ∧ kv.2 ≠ NA then dictSet old kv.1 kv.2 else old) k
          = dictGet? old k := by
        by_cases hc : pyTruthy kv.2 ∧ kv.2 ≠ NA
        · rw [if_pos hc, dictGet?_dictSet_ne old kv.1 k kv.2 hke]
        · rw [if_neg hc]
      rw [hacc, hget]

theorem updateRecord_get {old movie r : Record} {sd : PyVal}
    (hkeys : (movie.map (·.1)).Nodup)
    (hsd : dictGet? movie "Scrape Date" = some sd)
    (hr : updateRecord old movie = some r) :
    dictGet? r "Scrape Date" = some sd ∧
    ∀ k : String, k ≠ "Scrape Date" →
      dictGet? r k = match dictGet? movie k with
        | some v => if pyTruthy v ∧ v ≠ NA then some v else dictGet? old k
        | Option.none => dictGet? old k := by
  have hr2 : r = dictSet
      (movie.foldl
        (fun r2 kv => if pyTruthy kv.2 ∧ kv.2 ≠ NA then dictSet r2 kv.1 kv.2 else r2) old)
      "Scrape Date" sd := by
    simp only [updateRecord, hsd, Option.some_inj] at hr
    exact hr.symm
  constructor
  · rw [hr2, dictGet?_dictSet_self]
  · intro k hkne
    rw [hr2, dictGet?_dictSet_ne _ _ _ _ hkne, mergeFields_get movie old hkeys k]

/-! ## Theorems: shared helpers for the per-claim merge statements -/

theorem filter_eq_singleton {α : Type} {p : α → Bool} (F1 F2 : List α) (m : α)
    (h1 : ∀ x ∈ F1, ¬p x = true) (h2 : ∀ x ∈ F2, ¬p x = true) (hm : p m = true) :
    (F1 ++ m :: F2).filter p = [m] := by
  rw [List.filter_append, List.filter_cons_of_pos hm,
    List.filter_eq_nil_iff.mpr h1, List.filter_eq_nil_iff.mpr h2]
  rfl

theorem filter_eq_pair {α : Type} {p : α → Bool} (F1 F2 F3 : List α) (m1 m2 : α)
    (h1 : ∀ x ∈ F1, ¬p x = true) (h2 : ∀ x ∈ F2, ¬p x = true)
    (h3 : ∀ x ∈ F3, ¬p x = true) (hm1 : p m1 = true) (hm2 : p m2 = true) :
    (F1 ++ m1 :: (F2 ++ m2 :: F3)).filter p = [m1, m2] := by
  rw [List.filter_append, List.filter_cons_of_pos hm1, List.filter_append,
    List.filter_cons_of_pos hm2, List.filter_eq_nil_iff.mpr h1,
    List.filter_eq_nil_iff.mpr h2, List.filter_eq_nil_iff.mpr h3]
  rfl

theorem collapseAt_one {cur : Option Record} {m : Record} {res : Option Record}
    (h : collapseAt cur [m] = some res) :
    ∃ r, applyFresh cur m = some r ∧ res = some r := by
  cases happ : applyFresh cur m with
  | none => simp [collapseAt, happ] at h
  | some r =>
    have hc : collapseAt cur [m] = some (some r) := by simp [collapseAt, happ]
    rw [hc] at h
    exact ⟨r, rfl, (Option.some_inj.mp h).symm⟩

theorem collapseAt_two {cur : Option Record} {m1 m2 : Record} {res : Option Record}
    (h : collapseAt cur [m1, m2] = some res) :
    ∃ r1 r2, applyFresh cur m1 = some r1 ∧ applyFresh (some r1) m2 = some r2 ∧
      res = some r2 := by
  cases h1 : applyFresh cur m1 with
  | none => simp [collapseAt, h1] at h
  | some r1 =>
    cases h2 : applyFresh (some r1) m2 with
    | none => simp [collapseAt, h1, h2] at h
    | some r2 =>
      have hc : collapseAt cur [m1, m2] = some (some r2) := by simp [collapseAt, h1, h2]
      rw [hc] at h
      exact ⟨r1, r2, rfl, h2, (Option.some_inj.mp h).symm⟩

theorem mem_out_of_get {E : Collection} {F : List Record} {U : Collection}
    {out : List Record} {t : PyVal} {r : Record} (hU : mergeFold E F = some U)
    (hout : merge_data E F = some out) (hget : dictGet? U t = some r) : r ∈ out := by
  have hout2 : out = List.insertionSort recordLe (U.map (·.2)) := by
    simp only [merge_data, hU, Option.some_inj] at hout
    exact hout.symm
  rw [hout2]
  exact (List.perm_insertionSort recordLe (U.map (·.2))).mem_iff.mpr
    (List.mem_map_of_mem (·.2) (dictGet?_mem hget))

/-! ## Theorems: merge claims C1, C5, C9 -/

/-- Claim C1, counterexample: the field-level non-regression rule does
not cover the scrape-date field.  With a fresh record whose
`'Scrape Date'` value is the sentinel, the merge replaces the existing
real scrape date `2024-01-01` with `'N/A'` — a field replaced by the
sentinel although the existing record held a real value. -/
theorem claim1_counterexample :
    merge_data exColl [frNA] = some [mergedNA] ∧
    dictGet? exA "Scrape Date" = some (PyVal.str "2024-01-01") ∧
    pyTruthy (PyVal.str "2024-01-01") = true ∧ PyVal.str "2024-01-01" ≠ NA ∧
    dictGet? mergedNA "Scrape Date" = some NA := by decide

/-- Claim C1, amended: for every title present in both the existing
collection and the fresh batch, the merged record's field equals the
fresh value when the fresh value is truthy and not the sentinel, and
otherwise equals the existing value — for every field *except the
scrape-date field*, which is always overwritten with the fresh
scrape-date value (even when that value is falsy or the sentinel). -/
theorem claim1_field_non_regression (E : Collection) (F1 F2 : List Record)
    (m old : Record) (t sd : PyVal) (U : Collection) (out : List Record)
    (hm : dictGet? m "Movie Title" = some t)
    (hold : dictGet? E t = some old)
    (hsd : dictGet? m "Scrape Date" = some sd)
    (hkeys : (m.map (·.1)).Nodup)
    (hothers : ∀ m2 ∈ F1 ++ F2, dictGet? m2 "Movie Title" ≠ some t)
    (hU : mergeFold E (F1 ++ m :: F2) = some U)
    (hout : merge_data E (F1 ++ m :: F2) = some out) :
    ∃ r, dictGet? U t = some r ∧ r ∈ out ∧
      dictGet? r "Scrape Date" = some sd ∧
      ∀ k : String, k ≠ "Scrape Date" →
        dictGet? r k = match dictGet? m k with
          | some v => if pyTruthy v ∧ v ≠ NA then some v else dictGet? old k
          | Option.none => dictGet? old k := by
  have hcoll := mergeFold_collapseAt (F1 ++ m :: F2) E U t hU
  have hfil : (F1 ++ m :: F2).filter
      (fun m2 => decide (dictGet? m2 "Movie Title" = some t)) = [m] := by
    apply filter_eq_singleton
    · intro x hx
      simp [hothers x (List.mem_append_left _ hx)]
    · intro x hx
      simp [hothers x (List.mem_append_right _ hx)]
    · simp [hm]
  rw [hfil] at hcoll
  rcases collapseAt_one hcoll with ⟨r, happ, hres⟩
  rw [hold] at happ
  have hupd : updateRecord old m = some r := by simpa [applyFresh] using happ
  have hchar := updateRecord_get hkeys hsd hupd
  exact ⟨r, hres, mem_out_of_get hU hout hres, hchar.1, hchar.2⟩

/-- Claim C1, witness: the amended statement at the spec §8 example
(existing genre `Action` survives the sentinel, scrape date refreshed). -/
theorem claim1_witness :
    ∃ r, dictGet? mergedColl (PyVal.str "Movie A") = some r ∧ r ∈ [mergedA] ∧
      dictGet? r "Scrape Date" = some (PyVal.str "2024-02-01") ∧
      ∀ k : String, k ≠ "Scrape Date" →
        dictGet? r k = match dictGet? frA k with
          | some v => if pyTruthy v ∧ v ≠ NA then some v else dictGet? exA k
          | Option.none => dictGet? exA k :=
  claim1_field_non_regression exColl [] [] frA exA (PyVal.str "Movie A")
    (PyVal.str "2024-02-01") mergedColl [mergedA] (by decide) (by decide) (by decide)
    (by decide) (by decide) (by decide) (by decide)

/-- Claim C5: for every title present in the fresh batch (as the only
fresh record of that title), the merged record's scrape-date field equals
the fresh record's scrape-date, unconditionally — whether the title was
already known (line 97) or not (line 101), and regardless of the other
fresh field values. -/
theorem claim5_scrape_date_always_fresh (E : Collection) (F1 F2 : List Record)
    (m : Record) (t sd : PyVal) (U : Collection) (out : List Record)
    (hm : dictGet? m "Movie Title" = some t)
    (hsd : dictGet? m "Scrape Date" = some sd)
    (hothers : ∀ m2 ∈ F1 ++ F2, dictGet? m2 "Movie Title" ≠ some t)
    (hU : mergeFold E (F1 ++ m :: F2) = some U)
    (hout : merge_data E (F1 ++ m :: F2) = some out) :
    ∃ r, dictGet? U t = some r ∧ r ∈ out ∧ dictGet? r "Scrape Date" = some sd := by
  have hcoll := mergeFold_collapseAt (F1 ++ m :: F2) E U t hU
  have hfil : (F1 ++ m :: F2).filter
      (fun m2 => decide (dictGet? m2 "Movie Title" = some t)) = [m] := by
    apply filter_eq_singleton
    · intro x hx
      simp [hothers x (List.mem_append_left _ hx)]
    · intro x hx
      simp [hothers x (List.mem_append_right _ hx)]
    · simp [hm]
  rw [hfil] at hcoll
  rcases collapseAt_one hcoll with ⟨r, happ, hres⟩
  refine ⟨r, hres, mem_out_of_get hU hout hres, ?_⟩
  cases hcur : dictGet? E t with
  | none =>
    rw [hcur] at happ
    have hrm : m = r := by simpa [applyFresh] using happ
    rw [← hrm]
    exact hsd
  | some old =>
    rw [hcur] at happ
    have hupd : updateRecord old m = some r := by simpa [applyFresh] using happ
    simp only [updateRecord, hsd, Option.some_inj] at hupd
    rw [← hupd, dictGet?_dictSet_self]

/-- Claim C5, witness: the spec §8 example — the scrape date is updated
to the fresh run's value although the fresh genre was the sentinel. -/
theorem claim5_witness :
    ∃ r, dictGet? mergedColl (PyVal.str "Movie A") = some r ∧ r ∈ [mergedA] ∧
      dictGet? r "Scrape Date" = some (PyVal.str "2024-02-01") :=
  claim5_scrape_date_always_fresh exColl [] [] frA (PyVal.str "Movie A")
    (PyVal.str "2024-02-01") mergedColl [mergedA] (by decide) (by decide) (by decide)
    (by decide) (by decide)

/-- Claim C9, counterexample: two same-title fresh duplicates do collide
into one entry, but the surviving content is *not* that of the last
duplicate: `dupm2`'s sentinel genre did not win — the merged record keeps
`dupm1`'s genre. -/
theorem claim9_counterexample :
    merge_data [] [dupm1, dupm2] = some [mergedDup] ∧ mergedDup ≠ dupm2 := by decide

/-- Claim C9, amended: when the fresh batch contains two records with the
same (new) title, they silently collide into a single entry for that
title, whose content is the earlier record updated field-by-field by the
later one (truthy non-sentinel fields of the later win, the scrape date
of the later always wins) — not the whole last record. -/
theorem claim9_duplicates_collide (E : Collection) (F1 F2 F3 : List Record)
    (m1 m2 : Record) (t : PyVal) (U : Collection) (out : List Record)
    (hm1 : dictGet? m1 "Movie Title" = some t)
    (hm2 : dictGet? m2 "Movie Title" = some t)
    (hnew : dictGet? E t = Option.none)
    (hothers : ∀ m ∈ F1 ++ F2 ++ F3, dictGet? m "Movie Title" ≠ some t)
    (hU : mergeFold E (F1 ++ m1 :: (F2 ++ m2 :: F3)) = some U)
    (hout : merge_data E (F1 ++ m1 :: (F2 ++ m2 :: F3)) = some out) :
    ∃ r, updateRecord m1 m2 = some r ∧ dictGet? U t = some r ∧ r ∈ out := by
  have hcoll := mergeFold_collapseAt (F1 ++ m1 :: (F2 ++ m2 :: F3)) E U t hU
  have hfil : (F1 ++ m1 :: (F2 ++ m2 :: F3)).filter
      (fun m => decide (dictGet? m "Movie Title" = some t)) = [m1, m2] := by
    apply filter_eq_pair
    · intro x hx
      simp [hothers x (List.mem_append_left _ (List.mem_append_left _ hx))]
    · intro x hx
      simp [hothers x (List.mem_append_left _ (List.mem_append_right _ hx))]
    · intro x hx
      simp [hothers x (List.mem_append_right _ hx)]
    · simp [hm1]
    · simp [hm2]
  rw [hfil] at hcoll
  rcases collapseAt_two hcoll with ⟨r1, r2, h1, h2, hres⟩
  rw [hnew] at h1
  have hr1 : m1 = r1 := by simpa [applyFresh] using h1
  have hupd : updateRecord m1 m2 = some r2 := by
    rw [hr1]
    simpa [applyFresh] using h2
  exact ⟨r2, hupd, hres, mem_out_of_get hU hout hres⟩

/-- Claim C9, witness: the amended statement at the concrete duplicates
`dupm1`, `dupm2`. -/
theorem claim9_witness :
    ∃ r, updateRecord dupm1 dupm2 = some r ∧
      dictGet? dupColl (PyVal.str "A") = some r ∧ r ∈ [mergedDup] :=
  claim9_duplicates_collide [] [] [] [] dupm1 dupm2 (PyVal.str "A") dupColl [mergedDup]
    (by decide) (by decide) (by decide) (by decide) (by decide) (by decide)

/-! ## Theorems: the collection invariant and the output ordering (claim C6) -/

theorem isStr_exists {v : PyVal} (h : isStr v = true) : ∃ s, v = PyVal.str s := by
  cases v with
  | str s => exact ⟨s, rfl⟩
  | int n => simp [isStr] at h
  | none => simp [isStr] at h

theorem mergeStep_inv {acc acc2 : Collection} {m : Record}
    (hinv : collInv acc) (hm : (m.map (·.1)).Nodup) (hts : titleIsStr m = true)
    (hstep : mergeStep acc m = some acc2) : collInv acc2 := by
  rcases mergeStep_title hstep with ⟨tm, htm⟩
  have htmStr : isStr tm = true := by
    simp only [titleIsStr, htm] at hts
    exact hts
  cases hg : dictGet? acc tm with
  | some old =>
    cases hu : updateRecord old m with
    | none =>
      exfalso
      simp [mergeStep, htm, hg, hu] at hstep
    | some r =>
      simp only [mergeStep, htm, hg, hu, Option.some_inj] at hstep
      rw [← hstep]
      have holdmem : (tm, old) ∈ acc := dictGet?_mem hg
      have holdtitle : dictGet? old "Movie Title" = some tm := (hinv.2 (tm, old) holdmem).1
      have hSD : ∃ sd, dictGet? m "Scrape Date" = some sd := by
        cases hsd : dictGet? m "Scrape Date" with
        | none =>
          exfalso
          simp [updateRecord, hsd] at hu
        | some sd => exact ⟨sd, rfl⟩
      rcases hSD with ⟨sd, hsd⟩
      have hchar := updateRecord_get hm hsd hu
      have hrtitle : dictGet? r "Movie Title" = some tm := by
        have hMT : ("Movie Title" : String) ≠ "Scrape Date" := by decide
        rw [hchar.2 "Movie Title" hMT]
        simp only [htm]
        by_cases hc : pyTruthy tm ∧ tm ≠ NA
        · simp [hc]
        · simp [hc, holdtitle]
      constructor
      · rw [keys_dictSet_mem acc tm r (by simp [dictMem, hg])]
        exact hinv.1
      · intro p hp
        rcases mem_dictSet hp with hpe | hpin
        · rw [hpe]
          exact ⟨hrtitle, htmStr⟩
        · exact hinv.2 p hpin.1
  | none =>
    simp only [mergeStep, htm, hg, Option.some_inj] at hstep
    rw [← hstep]
    constructor
    · exact nodup_keys_dictSet acc tm m hinv.1
    · intro p hp
      rcases mem_dictSet hp with hpe | hpin
      · rw [hpe]
        exact ⟨htm, htmStr⟩
      · exact hinv.2 p hpin.1

theorem mergeFold_inv (F : List Record) :
    ∀ acc U : Collection, collInv acc → freshInv F →
      mergeFold acc F = some U → collInv U := by
  induction F with
  | nil =>
    intro acc U hinv _ h
    rw [← Option.some_inj.mp h]
    exact hinv
  | cons m fs ih =>
    intro acc U hinv hF h
    rcases (mergeFold_cons acc m fs U).mp h with ⟨acc2, hstep, hrest⟩
    have hmF := hF m (List.mem_cons_self _ _)
    exact ih acc2 U (mergeStep_inv hinv hmF.1 hmF.2 hstep)
      (fun x hx => hF x (List.mem_cons_of_mem _ hx)) hrest

/-- Claim C6: for every well-formed existing collection (unique keys
equal to the records' string titles) and well-formed fresh batch (dict
records with string titles), the output of `merge_data` is sorted
strictly by the title field in ascending lexicographic order — whatever
the iteration order of the existing collection and the order of the
fresh list. -/
theorem claim6_output_sorted_by_title (E : Collection) (F : List Record)
    (out : List Record) (hE : collInv E) (hF : freshInv F)
    (hout : merge_data E F = some out) :
    out.Pairwise (fun a b => ∃ sa sb, titleKey a = PyVal.str sa ∧
      titleKey b = PyVal.str sb ∧ pyStrLt sa sb = true) := by
  cases hU : mergeFold E F with
  | none =>
    exfalso
    simp [merge_data, hU] at hout
  | some U =>
    have hinvU : collInv U := mergeFold_inv F E U hE hF hU
    have hout2 : out = List.insertionSort recordLe (U.map (·.2)) := by
      simp only [merge_data, hU, Option.some_inj] at hout
      exact hout.symm
    have hval : ∀ r ∈ U.map (·.2), ∃ s, titleKey r = PyVal.str s := by
      intro r hr
      rcases List.mem_map.mp hr with ⟨p, hp, hpr⟩
      rcases hinvU.2 p hp with ⟨hpt, hps⟩
      rcases isStr_exists hps with ⟨s, hs⟩
      refine ⟨s, ?_⟩
      rw [← hpr]
      simp [titleKey, hpt, hs]
    have hkeysmap : U.map (fun p => titleKey p.2) = U.map (·.1) := by
      apply List.map_congr_left
      intro p hp
      rcases hinvU.2 p hp with ⟨hpt, _⟩
      simp [titleKey, hpt]
    have hnodup : ((U.map (·.2)).map titleKey).Nodup := by
      rw [List.map_map]
      have hcomp : U.map (titleKey ∘ (·.2)) = U.map (fun p => titleKey p.2) := rfl
      rw [hcomp, hkeysmap]
      exact hinvU.1
    have hpermOut : out.Perm (U.map (·.2)) :=
      hout2 ▸ List.perm_insertionSort recordLe (U.map (·.2))
    have hnodupOut : (out.map titleKey).Nodup :=
      ((hpermOut.map titleKey).nodup_iff).mpr hnodup
    have hvalOut : ∀ r ∈ out, ∃ s, titleKey r = PyVal.str s :=
      fun r hr => hval r (hpermOut.mem_iff.mp hr)
    have hsorted : out.Pairwise recordLe := by
      rw [hout2]
      exact List.sorted_insertionSort recordLe (U.map (·.2))
    have hne : out.Pairwise (fun a b => titleKey a ≠ titleKey b) :=
      List.pairwise_map.mp hnodupOut
    refine List.Pairwise.imp_of_mem ?_ (hsorted.and hne)
    intro a b ha hb hab
    rcases hvalOut a ha with ⟨sa, hsa⟩
    rcases hvalOut b hb with ⟨sb, hsb⟩
    refine ⟨sa, sb, hsa, hsb, ?_⟩
    have hle : pyLeB (titleKey a) (titleKey b) = true := hab.1
    rw [hsa, hsb] at hle
    have hsne : sa ≠ sb := by
      intro he
      exact hab.2 (by rw [hsa, hsb, he])
    have hle2 : pyStrLe sa sb = true := by simpa [pyLeB] using hle
    exact pyStrLt_of_le_of_ne hle2 hsne

instance (c : Collection) : Decidable (collInv c) := by
  unfold collInv
  infer_instance

instance (F : List Record) : Decidable (freshInv F) := by
  unfold freshInv
  infer_instance

/-- Claim C6, witness: an out-of-order existing collection (`B`, `A`)
plus a fresh record `C` comes out sorted `A < B < C`. -/
theorem claim6_witness :
    ([recA, recB, recC] : List Record).Pairwise (fun a b => ∃ sa sb,
      titleKey a = PyVal.str sa ∧ titleKey b = PyVal.str sb ∧ pyStrLt sa sb = true) :=
  claim6_output_sorted_by_title unsortedColl [recC] [recA, recB, recC]
    (by decide) (by decide) (by decide)

/-! ## Theorems: the Showtime Session Walker (claims C4, C10) -/

/-- Claim C4: when the initial showtime page has no recognizable
date-selector control, `scrape_aggregated_showtimes` returns the `'N/A'`
sentinel immediately and issues no postback (this also covers an initial
response whose status makes `raise_for_status` throw: the walker then
resolves to the sentinel before any postback as well). -/
theorem claim4_no_dropdown_sentinel (initialStatus : Nat) (page : Page)
    (server : Nat → PostResp) (hdd : page.dateDropdown = Option.none) :
    scrape_aggregated_showtimes initialStatus page server = ("N/A", []) := by
  unfold scrape_aggregated_showtimes scrapeShowtimesStructured
  by_cases hst : 400 ≤ initialStatus
  · rw [if_pos hst]
  · rw [if_neg hst, hdd]

/-- Claim C4, witness: a concrete page with no date dropdown. -/
theorem claim4_witness :
    scrape_aggregated_showtimes 200 noDropPage trivialServer = ("N/A", []) :=
  claim4_no_dropdown_sentinel 200 noDropPage trivialServer (by decide)

/-- Claim C10: when the date selector is present but no option carries a
`value` attribute, the selectable-date list is empty and the walker
returns the `'N/A'` sentinel without parsing showtimes (the result is the
sentinel, not a serialized payload) and without issuing any postback. -/
theorem claim10_no_valued_options_sentinel (initialStatus : Nat) (page : Page)
    (server : Nat → PostResp) (opts : List OptionTag)
    (hdd : page.dateDropdown = some opts)
    (hnoval : ∀ o ∈ opts, o.value = Option.none) :
    scrape_aggregated_showtimes initialStatus page server = ("N/A", []) := by
  have hopts : dateOptionsOf opts = [] := by
    unfold dateOptionsOf
    have hfil : opts.filter (fun o =>
        match o.value with
        | some v => decide (v ≠ "")
        | Option.none => false) = [] := by
      rw [List.filter_eq_nil_iff]
      intro o ho
      rw [hnoval o ho]
      simp
    rw [hfil]
    rfl
  unfold scrape_aggregated_showtimes scrapeShowtimesStructured
  by_cases hst : 400 ≤ initialStatus
  · rw [if_pos hst]
  · simp only [if_neg hst, hdd, hopts]

/-- Claim C10, witness: a concrete page whose two date options carry no
`value` attribute. -/
theorem claim10_witness :
    scrape_aggregated_showtimes 200 noValPage trivialServer = ("N/A", []) :=
  claim10_no_valued_options_sentinel 200 noValPage trivialServer
    [⟨Option.none, "Mon"⟩, ⟨Option.none, "Tue"⟩] (by decide) (by decide)

/-! ## Theorems: the date-postback loop (claim C3) -/

theorem dictSet_append_of_not_mem {κ α : Type} [DecidableEq κ] {d : List (κ × α)} {k : κ}
    (v : α) (h : k ∉ d.map (·.1)) : dictSet d k v = d ++ [(k, v)] := by
  have hnone : dictGet? d k = Option.none := (dictGet?_eq_none_iff d k).mpr h
  unfold dictSet
  rw [if_neg (by simp [dictMem, hnone])]

/-- On a run where postback `k` (counting from the first POST) fails and
all earlier postbacks succeed, the date loop stops right there: it adds
exactly the first `k` dates' parsed data to the accumulator and issues
exactly `k + 1` postbacks. -/
theorem walkLoop_fail (server : Nat → PostResp) (restD : List (String × String)) :
    ∀ (k i : Nat) (vs ev : String) (acc : List (String × ShowMap))
      (posts : List FormData),
      k < restD.length →
      (server (i + k)).status ≠ 200 →
      (∀ j, j < k → (server (i + j)).status = 200) →
      (acc.map (·.1) ++ ((restD.take k).map (·.2))).Nodup →
      (walkLoop server restD i vs ev acc posts).1
          = acc ++ processedDates server restD i k ∧
      (walkLoop server restD i vs ev acc posts).2.length = posts.length + (k + 1) := by
  induction restD with
  | nil =>
    intro k i _ _ _ _ hk _ _ _
    exact absurd hk (by simp)
  | cons d rest ih =>
    intro k i vs ev acc posts hk hfail hsucc hnd
    cases k with
    | zero =>
      have hfail0 : (server i).status ≠ 200 := by simpa using hfail
      simp only [walkLoop, if_pos hfail0]
      exact ⟨by simp [processedDates], by simp⟩
    | succ k2 =>
      have hsucc0 : (server i).status = 200 := by
        simpa using hsucc 0 (Nat.succ_pos k2)
      have hcondfalse : ¬((server i).status ≠ 200) := by simp [hsucc0]
      have hnd2 : (acc.map (·.1) ++ (d.2 :: (rest.take k2).map (·.2))).Nodup := by
        simpa using hnd
      have hnotin : d.2 ∉ acc.map (·.1) := by
        intro hmem
        rcases List.nodup_append.mp hnd2 with ⟨_, _, hdisj⟩
        exact hdisj hmem (List.mem_cons_self _ _)
      have hset : dictSet acc d.2
            (parse_showtimes_from_html (server i).page.showtimesList)
          = acc ++ [(d.2, parse_showtimes_from_html (server i).page.showtimesList)] :=
        dictSet_append_of_not_mem _ hnotin
      have hk2 : k2 < rest.length := Nat.lt_of_succ_lt_succ hk
      have hfail2 : (server (i + 1 + k2)).status ≠ 200 := by
        have harith : i + 1 + k2 = i + (k2 + 1) := by omega
        rw [harith]
        exact hfail
      have hsucc2 : ∀ j, j < k2 → (server (i + 1 + j)).status = 200 := by
        intro j hj
        have harith : i + 1 + j = i + (j + 1) := by omega
        rw [harith]
        exact hsucc (j + 1) (by omega)
      have hnd3 : ((acc ++ [(d.2,
            parse_showtimes_from_html (server i).page.showtimesList)]).map (·.1)
          ++ ((rest.take k2).map (·.2))).Nodup := by
        rw [List.map_append, List.append_assoc]
        simpa using hnd2
      have hih := ih k2 (i + 1)
        (match (server i).page.viewstate with | some v => v | Option.none => vs)
        (match (server i).page.eventvalidation with | some v => v | Option.none => ev)
        (acc ++ [(d.2, parse_showtimes_from_html (server i).page.showtimesList)])
        (posts ++ [⟨EVENTTARGET, "", "", vs, ev, d.1⟩])
        hk2 hfail2 hsucc2 hnd3
      simp only [walkLoop, if_neg hcondfalse, hset]
      constructor
      · rw [hih.1, List.append_assoc]
        rfl
      · rw [hih.2]
        simp only [List.length_append, List.length_cons, List.length_nil]
        omega

theorem dictGet?_mapExtend_self (cm : List (String × List (String × List String)))
    (c : String) (s : String × List String) (hmem : dictMem cm c = true) :
    dictGet? (cm.map fun p => if p.1 = c then (p.1, p.2 ++ [s]) else p) c
      = some ((dictGet? cm c).getD [] ++ [s]) := by
  induction cm with
  | nil => simp [dictMem, dictGet?] at hmem
  | cons p ps ih =>
    by_cases hp : p.1 = c
    · simp [dictGet?, hp]
    · have hmem2 : dictMem ps c = true := by
        simpa [dictMem, dictGet?, hp] using hmem
      simp [dictGet?, hp, ih hmem2]

theorem dictGet?_mapExtend_ne (cm : List (String × List (String × List String)))
    (c2 c : String) (s : String × List String) (h : c ≠ c2) :
    dictGet? (cm.map fun p => if p.1 = c2 then (p.1, p.2 ++ [s]) else p) c
      = dictGet? cm c := by
  induction cm with
  | nil => rfl
  | cons p ps ih =>
    by_cases hp : p.1 = c2
    · have hc2c : ¬(c2 = c) := fun he => h he.symm
      simp [dictGet?, hp, hc2c, ih]
    · simp only [List.map_cons, if_neg hp, dictGet?]
      by_cases hpc : p.1 = c
      · simp [hpc]
      · simp [hpc, ih]

theorem dictGet?_appendShowing_self (cm : List (String × List (String × List String)))
    (c : String) (s : String × List String) :
    dictGet? (appendShowing cm c s) c = some ((dictGet? cm c).getD [] ++ [s]) := by
  unfold appendShowing
  by_cases hmem : dictMem cm c = true
  · rw [if_pos hmem]
    exact dictGet?_mapExtend_self cm c s hmem
  · rw [if_neg hmem]
    have hmemf : dictMem cm c = false := by
      cases hx : dictMem cm c
      · rfl
      · exact absurd hx hmem
    rw [dictGet?_append_single cm c [s] hmemf, dictGet?_of_not_mem hmemf]
    rfl

theorem dictGet?_appendShowing_ne (cm : List (String × List (String × List String)))
    (c2 c : String) (s : String × List String) (h : c ≠ c2) :
    dictGet? (appendShowing cm c2 s) c = dictGet? cm c := by
  unfold appendShowing
  by_cases hmem : dictMem cm c2 = true
  · rw [if_pos hmem]
    exact dictGet?_mapExtend_ne cm c2 c s h
  · rw [if_neg hmem]
    exact dictGet?_append_single_ne cm c2 c [s] h

theorem mem_appendShowing (cm : List (String × List (String × List String)))
    (c2 c : String) (s x : String × List String)
    (h : x ∈ (dictGet? cm c).getD []) :
    x ∈ (dictGet? (appendShowing cm c2 s) c).getD [] := by
  by_cases hc : c = c2
  · subst hc
    rw [dictGet?_appendShowing_self]
    simp only [Option.getD_some]
    exact List.mem_append_left _ h
  · rw [dictGet?_appendShowing_ne cm c2 c s hc]
    exact h

theorem mem_stepDate (dp1 : String) (ds : List (String × List String)) :
    ∀ (cm : List (String × List (String × List String))) (c : String)
      (x : String × List String),
      x ∈ (dictGet? cm c).getD [] →
      x ∈ (dictGet? (ds.foldl
          (fun cm2 cp => appendShowing cm2 cp.1 (dp1, cp.2)) cm) c).getD [] := by
  induction ds with
  | nil =>
    intro cm c x h
    exact h
  | cons q rest ih =>
    intro cm c x h
    exact ih _ c x (mem_appendShowing _ q.1 c (dp1, q.2) x h)

theorem stepDate_adds (dp1 : String) (ds : List (String × List String)) :
    ∀ (cm : List (String × List (String × List String))) (cp : String × List String),
      cp ∈ ds →
      (dp1, cp.2) ∈ (dictGet? (ds.foldl
          (fun cm2 cp2 => appendShowing cm2 cp2.1 (dp1, cp2.2)) cm) cp.1).getD [] := by
  induction ds with
  | nil =>
    intro cm cp h
    simp at h
  | cons q rest ih =>
    intro cm cp h
    rcases List.mem_cons.mp h with he | he
    · subst he
      apply mem_stepDate dp1 rest
      rw [dictGet?_appendShowing_self]
      simp only [Option.getD_some]
      exact List.mem_append_right _ (List.mem_singleton.mpr rfl)
    · exact ih _ cp he

theorem restructure_mono (allDates : List (String × ShowMap)) :
    ∀ (cm : List (String × List (String × List String))) (c : String)
      (x : String × List String),
      x ∈ (dictGet? cm c).getD [] →
      x ∈ (dictGet? (allDates.foldl (fun cm2 dp =>
          dp.2.foldl (fun cm3 cp => appendShowing cm3 cp.1 (dp.1, cp.2)) cm2) cm) c).getD [] := by
  induction allDates with
  | nil =>
    intro cm c x h
    exact h
  | cons a rest ih =>
    intro cm c x h
    exact ih _ c x (mem_stepDate a.1 a.2 cm c x h)

theorem restructure_contains_aux (allDates : List (String × ShowMap)) :
    ∀ (start : List (String × List (String × List String)))
      (dp : String × ShowMap), dp ∈ allDates → ∀ cp ∈ dp.2,
      (dp.1, cp.2) ∈ (dictGet? (allDates.foldl (fun cm dp2 =>
          dp2.2.foldl (fun cm2 cp2 => appendShowing cm2 cp2.1 (dp2.1, cp2.2)) cm)
          start) cp.1).getD [] := by
  induction allDates with
  | nil =>
    intro start dp h
    simp at h
  | cons a rest ih =>
    intro start dp h cp hcp
    rcases List.mem_cons.mp h with he | he
    · subst he
      exact restructure_mono rest _ cp.1 _ (stepDate_adds dp.1 dp.2 start cp hcp)
    · exact ih _ dp he cp hcp

/-- Every `(date, cinema, times)` triple of `all_dates_data` appears in
the restructured payload under its cinema. -/
theorem restructure_contains (allDates : List (String × ShowMap))
    (dp : String × ShowMap) (hdp : dp ∈ allDates) (cp : String × List String)
    (hcp : cp ∈ dp.2) :
    (dp.1, cp.2) ∈ (dictGet? (restructure allDates) cp.1).getD [] := by
  unfold restructure
  exact restructure_contains_aux allDates [] dp hdp cp hcp

theorem processedDates_mem (server : Nat → PostResp) (restD : List (String × String)) :
    ∀ (i k j : Nat), j < k → ∀ hjr : j < restD.length,
      ((restD.get ⟨j, hjr⟩).2,
          parse_showtimes_from_html (server (i + j)).page.showtimesList)
        ∈ processedDates server restD i k := by
  induction restD with
  | nil =>
    intro i k j _ hjr
    simp at hjr
  | cons d rest ih =>
    intro i k j hj hjr
    cases k with
    | zero => omega
    | succ k2 =>
      cases j with
      | zero => simp [processedDates]
      | succ j2 =>
        have hjr2 : j2 < rest.length := Nat.lt_of_succ_lt_succ hjr
        have hmem := ih (i + 1) k2 j2 (by omega) hjr2
        have harith : i + 1 + j2 = i + (j2 + 1) := by omega
        rw [harith] at hmem
        exact List.mem_cons_of_mem _ hmem

/-- Claim C3: in the Showtime Session Walker, if the `k`-th postback
(0-based, among the dates after the pre-rendered first one) returns a
non-success status while all earlier postbacks succeeded, then exactly
`k + 1` postbacks are issued (no further dates are processed), the walk
still produces a payload, and that payload contains the data of every
date processed before the failure: the pre-rendered first date and each
of the `k` earlier successful postbacks. -/
theorem claim3_postback_failure (initialStatus : Nat) (page : Page)
    (server : Nat → PostResp) (opts : List OptionTag) (d0 : String × String)
    (restD : List (String × String)) (k : Nat)
    (hst : initialStatus < 400)
    (hdd : page.dateDropdown = some opts)
    (hopts : dateOptionsOf opts = d0 :: restD)
    (hk : k < restD.length)
    (hfail : (server k).status ≠ 200)
    (hsucc : ∀ j, j < k → (server j).status = 200)
    (hdates : (d0.2 :: ((restD.take k).map (·.2))).Nodup) :
    (scrapeShowtimesStructured initialStatus page server).2.length = k + 1 ∧
    ∃ cs, (scrapeShowtimesStructured initialStatus page server).1 = some cs ∧
      (∀ cp ∈ parse_showtimes_from_html page.showtimesList,
        (d0.2, cp.2) ∈ (dictGet? cs cp.1).getD []) ∧
      (∀ j, ∀ hj : j < k, ∀ cp ∈ parse_showtimes_from_html
          (server j).page.showtimesList,
        ((restD.get ⟨j, Nat.lt_trans hj hk⟩).2, cp.2) ∈ (dictGet? cs cp.1).getD []) := by
  have hnotle : ¬(400 ≤ initialStatus) := Nat.not_le.mpr hst
  have hwalk := walkLoop_fail server restD k 0 (page.viewstate.getD "")
    (page.eventvalidation.getD "")
    [(d0.2, parse_showtimes_from_html page.showtimesList)] [] hk
    (by simpa using hfail) (by intro j hj; simpa using hsucc j hj)
    (by simpa using hdates)
  have hred : scrapeShowtimesStructured initialStatus page server
      = (some (restructure ((walkLoop server restD 0 (page.viewstate.getD "")
            (page.eventvalidation.getD "")
            [(d0.2, parse_showtimes_from_html page.showtimesList)] []).1)),
          (walkLoop server restD 0 (page.viewstate.getD "")
            (page.eventvalidation.getD "")
            [(d0.2, parse_showtimes_from_html page.showtimesList)] []).2) := by
    simp only [scrapeShowtimesStructured, if_neg hnotle, hdd, hopts]
  rw [hred]
  constructor
  · rw [hwalk.2]
    simp
  · refine ⟨_, rfl, ?_, ?_⟩
    · intro cp hcp
      have hdp : ((d0.2, parse_showtimes_from_html page.showtimesList) : String × ShowMap)
          ∈ (walkLoop server restD 0 (page.viewstate.getD "")
            (page.eventvalidation.getD "")
            [(d0.2, parse_showtimes_from_html page.showtimesList)] []).1 := by
        rw [hwalk.1]
        exact List.mem_append_left _ (List.mem_singleton.mpr rfl)
      exact restructure_contains _ _ hdp cp hcp
    · intro j hj cp hcp
      have hdp : (((restD.get ⟨j, Nat.lt_trans hj hk⟩).2,
            parse_showtimes_from_html (server j).page.showtimesList) : String × ShowMap)
          ∈ (walkLoop server restD 0 (page.viewstate.getD "")
            (page.eventvalidation.getD "")
            [(d0.2, parse_showtimes_from_html page.showtimesList)] []).1 := by
        rw [hwalk.1]
        apply List.mem_append_right
        have hm := processedDates_mem server restD 0 k j hj (Nat.lt_trans hj hk)
        simpa using hm
      exact restructure_contains _ _ hdp cp hcp

/-- Claim C3, witness: three selectable dates, the first postback
succeeds, the second fails; two postbacks are issued and the payload
keeps both the pre-rendered date and the successful one. -/
theorem claim3_witness :
    (scrapeShowtimesStructured 200 wPage wServer).2.length = 2 ∧
    ∃ cs, (scrapeShowtimesStructured 200 wPage wServer).1 = some cs ∧
      (∀ cp ∈ parse_showtimes_from_html wPage.showtimesList,
        ("Mon", cp.2) ∈ (dictGet? cs cp.1).getD []) ∧
      (∀ j, ∀ hj : j < 1, ∀ cp ∈ parse_showtimes_from_html
          (wServer j).page.showtimesList,
        (([("v2", "Tue"), ("v3", "Wed")].get ⟨j, Nat.lt_trans hj (by decide)⟩).2, cp.2)
          ∈ (dictGet? cs cp.1).getD []) :=
  claim3_postback_failure 200 wPage wServer
    [⟨some "v1", "Mon"⟩, ⟨some "v2", "Tue"⟩, ⟨some "v3", "Wed"⟩]
    ("v1", "Mon") [("v2", "Tue"), ("v3", "Wed")] 1
    (by decide) rfl (by decide) (by decide) (by decide) (by decide) (by decide)

end Scraper
